import Mathlib

/-!
Shallow embedding of the noteai-backend HTTP handlers (src/server.js and the
variant files src/unnamed/part_000 .. part_004) and proofs of the frozen
claims about them.  JavaScript strings are modelled as Lean strings (lists
of characters), machine-level JSON values are modelled by the fields the
handlers actually inspect, and the external collaborators (Google OAuth
client, jsonwebtoken, the Postgres driver, fetch) are modelled as explicit
oracle parameters or outcome values fed to the handlers.
-/

namespace NoteAI

/-! ## Characters, lines and whitespace (for stripSources and trim) -/

/-- Inline whitespace characters matched by the JS regex class inside a line
(space, tab, carriage return, vertical tab, form feed). -/
def isInlineWs (c : Char) : Bool :=
  c = ' ' || c = '\t' || c = '\r' || c = '\x0b' || c = '\x0c'

/-- Whitespace as stripped by the JS trim method: inline whitespace or a
newline. -/
def isJsWs (c : Char) : Bool :=
  isInlineWs c || c = '\n'

/-- Split a character list into its lines at newline characters.  Always
returns a nonempty list; an empty input has the single empty line. -/
def splitLines : List Char → List (List Char)
  | [] => [[]]
  | c :: cs =>
    if c = '\n' then [] :: splitLines cs
    else (splitLines cs).modifyHead (c :: ·)

/-- Rejoin a list of lines with newline characters (inverse of splitLines). -/
def joinLines : List (List Char) → List Char
  | [] => []
  | [l] => l
  | l :: ls => l ++ '\n' :: joinLines ls

/-- Drop leading JS whitespace (the leading half of the trim method). -/
def ltrimChars (s : List Char) : List Char :=
  s.dropWhile isJsWs

/-- Drop trailing JS whitespace (the trailing half of the trim method). -/
def rtrimChars : List Char → List Char
  | [] => []
  | c :: cs =>
    let r := rtrimChars cs
    if r.isEmpty then (if isJsWs c then [] else [c]) else c :: r

/-- Both-ends trim, modelling the JS trim method on the character list. -/
def trimChars (s : List Char) : List Char :=
  rtrimChars (ltrimChars s)

/-- The citation header literal matched by the stripSources regex. -/
def srcHeader : List Char := "SOURCES:".data

/-- Lower-case a character list (models the i flag of the regex). -/
def lowerList (l : List Char) : List Char := l.map Char.toLower

/-- A line matched by the stripSources regex: after optional inline
whitespace it starts, case-insensitively, with the SOURCES: header. -/
def isSourcesLine (l : List Char) : Bool :=
  (lowerList srcHeader).isPrefixOf (lowerList (l.dropWhile isInlineWs))

/-- Replacing one matched line with the empty string, as the regex
substitution does. -/
def blankSrc (l : List Char) : List Char :=
  if isSourcesLine l then [] else l

/-- src/server.js lines 136-138: stripSources replaces every line matching
the SOURCES: header regex (multiline, case-insensitive) with the empty
string and trims the result.  The whitespace class of the pattern is
modelled within the matched line. -/
def stripSources (s : String) : String :=
  String.mk (trimChars (joinLines ((splitLines s.data).map blankSrc)))

/-- No line of the character list matches the SOURCES: header pattern. -/
def linesOk (s : List Char) : Bool :=
  (splitLines s).all (fun l => !isSourcesLine l)

/-- Concatenation of two line lists as produced by splitting the
concatenation of the underlying character lists: the last line of the
first list fuses with the first line of the second. -/
def glue : List (List Char) → List (List Char) → List (List Char)
  | [], ys => ys
  | x :: xs, ys =>
    match xs with
    | [] =>
      match ys with
      | [] => [x]
      | y :: ys2 => (x ++ y) :: ys2
    | _ :: _ => x :: glue xs ys

/-! ## buildContext (src/server.js lines 132-135) -/

/-- The two fields of a note row that the ask handler selects. -/
structure NoteDoc where
  title : Option String
  body : Option String
deriving DecidableEq

/-- One note rendered for the prompt: title header then body, with null
fields replaced by the empty string. -/
def noteChunk (n : NoteDoc) : String :=
  "# " ++ n.title.getD "" ++ "\n" ++ n.body.getD ""

/-- The full concatenation of the rendered notes with the separator used by
buildContext. -/
def buildJoined (notes : List NoteDoc) : String :=
  String.intercalate "\n\n---\n\n" (notes.map noteChunk)

/-- JS slice from index zero: keep the first limit characters. -/
def sliceTo (s : String) (limit : Nat) : String :=
  String.mk (s.data.take limit)

/-- src/server.js lines 132-135: join the notes and cut the result at the
character limit when it is longer. -/
def buildContext (notes : List NoteDoc) (limitChars : Nat) : String :=
  let joined := buildJoined notes
  if joined.length > limitChars then sliceTo joined limitChars else joined

/-! ## JavaScript truthiness on optional strings -/

/-- JS truthiness of an optional string value: null, undefined and the
empty string are falsy.  Used to model expressions of the shape
value or fallback in the handlers. -/
def jsTruthyStr : Option String → Option String
  | some s => if s.isEmpty then none else some s
  | none => none

/-! ## The notes table and the part_002 notes handlers -/

/-- A row of the notes table (id, user_id, title, body, created_at,
updated_at), timestamps as abstract ticks. -/
structure NoteRow where
  id : Nat
  user_id : String
  title : Option String
  body : Option String
  created_at : Nat
  updated_at : Nat
deriving DecidableEq

/-- Recency order on rows used by ORDER BY created_at DESC. -/
def createdDesc (a b : NoteRow) : Prop :=
  b.created_at ≤ a.created_at

instance : DecidableRel createdDesc := fun a b =>
  inferInstanceAs (Decidable (b.created_at ≤ a.created_at))

instance : IsTotal NoteRow createdDesc :=
  ⟨fun a b => (Nat.le_total b.created_at a.created_at).imp id id⟩

instance : IsTrans NoteRow createdDesc :=
  ⟨fun _ _ _ h h2 => Nat.le_trans h2 h⟩

/-- Does the needle occur as a contiguous run of the haystack? -/
def listContains (needle : List Char) : List Char → Bool
  | [] => needle.isEmpty
  | c :: cs => needle.isPrefixOf (c :: cs) || listContains needle cs

/-- Case-insensitive substring containment, modelling ILIKE with percent
wildcards on both sides. -/
def containsCI (hay needle : String) : Bool :=
  listContains (lowerList needle.data) (lowerList hay.data)

/-- The optional free-text filter of the list query: a NULL parameter
matches every row, otherwise title or body must contain the text
case-insensitively (a NULL column does not match). -/
def rowMatchesQ (q : Option String) (r : NoteRow) : Bool :=
  match q with
  | none => true
  | some qs =>
    (match r.title with | some t => containsCI t qs | none => false) ||
    (match r.body with | some b => containsCI b qs | none => false)

/-- src/unnamed/part_002 lines 136-143: the SQL of GET /api/notes — rows of
the given owner matching the optional filter, ordered by created_at
descending, limited to 100. -/
def notesQuery (table : List NoteRow) (userId : String) (q : Option String) :
    List NoteRow :=
  (List.insertionSort createdDesc
    (table.filter (fun r => r.user_id = userId && rowMatchesQ q r))).take 100

/-- Response of the list handler: HTTP status and returned rows. -/
structure NotesListResponse where
  status : Nat
  rows : List NoteRow
deriving DecidableEq

/-- src/unnamed/part_002 lines 133-145: GET /api/notes — the owner id and
the filter are read from the query string; a falsy owner id is a 400. -/
def notesListHandler (table : List NoteRow) (queryUserId q : Option String) :
    NotesListResponse :=
  match jsTruthyStr queryUserId with
  | none => ⟨400, []⟩
  | some uid => ⟨200, notesQuery table uid (jsTruthyStr q)⟩

/-- Result of the create handler: HTTP status, returned row, new table. -/
structure NotesCreateResult where
  status : Nat
  row : Option NoteRow
  table : List NoteRow
deriving DecidableEq

/-- src/unnamed/part_002 lines 123-131: POST /api/notes — the owner id is
read from the request body; the INSERT appends a row whose timestamps are
the current tick. -/
def notesCreateHandler (table : List NoteRow) (bodyUserId title body : Option String)
    (id now : Nat) : NotesCreateResult :=
  match jsTruthyStr bodyUserId with
  | none => ⟨400, none, table⟩
  | some uid =>
    let r : NoteRow := ⟨id, uid, title, body, now, now⟩
    ⟨200, some r, table ++ [r]⟩

/-! ## The ask handler of src/server.js -/

/-- Outcome of the outbound generation fetch as the handler observes it:
an abort fired by the timeout controller, another fetch exception, or a
response with its ok flag, status, and the JSON extraction — none when
JSON.parse throws, otherwise the optional candidates text. -/
inductive GeminiOutcome where
  | abortError
  | fetchError
  | response (ok : Bool) (status : Nat) (extracted : Option (Option String))
deriving DecidableEq

/-- Response of the ask handler: HTTP status and the answer field. -/
structure AskResponse where
  status : Nat
  answer : Option String
deriving DecidableEq

/-- src/server.js lines 184-221: mapping of the generation call outcome to
the response — abort means 504, other fetch errors 500, a non-ok upstream
status 502, an unparsable body 502, and a parsed body answers 200 with the
extracted text (empty when absent) passed through stripSources. -/
def askUpstreamRespond (o : GeminiOutcome) : AskResponse :=
  match o with
  | .abortError => ⟨504, none⟩
  | .fetchError => ⟨500, none⟩
  | .response ok _ extracted =>
    if !ok then ⟨502, none⟩
    else
      match extracted with
      | none => ⟨502, none⟩
      | some e => ⟨200, some (stripSources (e.getD ""))⟩

/-- The request fields POST /api/ask reads: the body question, the
authenticated user id (req.user, set by middleware when present) and the
body userId field. -/
structure AskReq where
  question : Option String
  reqUser : Option String
  bodyUserId : Option String
deriving DecidableEq

/-- The environment of the ask handler: the generation API key and the
optional database table behind the pool. -/
structure AskEnv where
  geminiApiKey : Option String
  dbTable : Option (List NoteRow)
deriving DecidableEq

/-- src/server.js line 181: the timeout is the configured value or 60s. -/
def askTimeoutMs (configured : Option Nat) : Nat :=
  configured.getD 60000

/-- src/server.js line 143: the question must be present and not blank. -/
def questionOk (req : AskReq) : Bool :=
  match req.question with
  | none => false
  | some q => !(trimChars q.data).isEmpty

/-- src/server.js line 146: the user id used to scope the notes query is
req.user when truthy, otherwise the request body userId, otherwise null. -/
def resolveAskUserId (req : AskReq) : Option String :=
  match jsTruthyStr req.reqUser with
  | some u => some u
  | none => jsTruthyStr req.bodyUserId

/-- Recency order on rows used by ORDER BY updated_at DESC. -/
def updatedDesc (a b : NoteRow) : Prop :=
  b.updated_at ≤ a.updated_at

instance : DecidableRel updatedDesc := fun a b =>
  inferInstanceAs (Decidable (b.updated_at ≤ a.updated_at))

/-- src/server.js lines 153-156: the SQL of the ask handler — title and
body of the user's rows, ordered by updated_at descending, limited to
50. -/
def askNotesFor (table : List NoteRow) (userId : String) : List NoteDoc :=
  ((List.insertionSort updatedDesc
      (table.filter (fun r => r.user_id = userId))).take 50).map
    (fun r => ⟨r.title, r.body⟩)

/-- src/server.js lines 140-221: POST /api/ask — blank question 400, no
resolvable user id 401, missing API key 500, otherwise the outcome of the
generation call decides the response. -/
def askHandler (env : AskEnv) (req : AskReq) (o : GeminiOutcome) : AskResponse :=
  if !questionOk req then ⟨400, none⟩
  else
    match resolveAskUserId req with
    | none => ⟨401, none⟩
    | some _ =>
      match env.geminiApiKey with
      | none => ⟨500, none⟩
      | some _ => askUpstreamRespond o

/-! ## Google OAuth exchange (server.js, part_000, part_001) -/

/-- The shape of a google-auth-library exception that
mapGoogleExchangeError inspects: the optional HTTP status of the provider
response and the optional error code of its body. -/
structure GoogleHttpError where
  status : Option Nat
  errorCode : Option String
deriving DecidableEq

/-- An HTTP reply reduced to its status and error code. -/
structure HttpReply where
  status : Nat
  error : String
deriving DecidableEq

/-- src/unnamed/part_000 lines 26-39 (same function in part_001 and
part_003): classify a failed provider exchange — provider 400 with
invalid_grant or redirect_uri_mismatch keeps status 400 and the code,
provider 401 becomes unauthorized_client, anything else becomes 502
oauth_exchange_failed. -/
def mapGoogleExchangeError (e : GoogleHttpError) : HttpReply :=
  if e.status = some 400 ∧ e.errorCode = some "invalid_grant" then
    ⟨400, "invalid_grant"⟩
  else if e.status = some 400 ∧ e.errorCode = some "redirect_uri_mismatch" then
    ⟨400, "redirect_uri_mismatch"⟩
  else if e.status = some 401 then ⟨401, "unauthorized_client"⟩
  else ⟨502, "oauth_exchange_failed"⟩

/-- The provider token response as src/server.js observes it: the ok flag
and status of the fetch, and the optional id_token of the parsed body. -/
structure TokenResp where
  ok : Bool
  status : Nat
  idToken : Option String
deriving DecidableEq

/-- A Google id-token payload reduced to the fields the handlers read. -/
structure GPayload where
  sub : Option String
  email : Option String
deriving DecidableEq

/-- Outcome of verifyIdToken as the handlers observe it: a thrown
verification error, or a ticket whose payload may be absent. -/
inductive VerifyOutcome where
  | err
  | ok (payload : Option GPayload)
deriving DecidableEq

/-- src/server.js lines 36-102: POST /auth/google/exchange — missing code
400, unconfigured client 500, a non-ok token response 502 (whatever the
provider status was), missing id_token 502, failed or empty verification
502, success 200. -/
def exchangeServerJs (clientId clientSecret code : Option String)
    (tok : TokenResp) (verify : VerifyOutcome) : HttpReply :=
  match code with
  | none => ⟨400, "Missing code"⟩
  | some _ =>
    if clientId = none ∨ clientSecret = none then ⟨500, "Server misconfigured (oauth client)"⟩
    else if !tok.ok then ⟨502, "Token exchange failed"⟩
    else
      match tok.idToken with
      | none => ⟨502, "No id_token in token response"⟩
      | some _ =>
        match verify with
        | .err => ⟨502, "id_token_verify_failed"⟩
        | .ok none => ⟨502, "Invalid id_token"⟩
        | .ok (some _) => ⟨200, "ok"⟩

/-- Outcome of the getToken call of the OAuth client library. -/
inductive GetTokenOutcome where
  | ok (idToken : Option String)
  | err (e : GoogleHttpError)
deriving DecidableEq

/-- src/unnamed/part_001 lines 40-63: POST /auth/google/exchange — missing
code 400, a successful getToken answers 200 with the tokens, and a thrown
exchange error is classified by mapGoogleExchangeError. -/
def exchangePart001 (code : Option String) (r : GetTokenOutcome) : HttpReply :=
  match code with
  | none => ⟨400, "missing_code"⟩
  | some _ =>
    match r with
    | .ok _ => ⟨200, "ok"⟩
    | .err e => mapGoogleExchangeError e

/-! ## Session validation: /auth/me -/

/-- The Authorization header of a request: absent, present without the
Bearer scheme, or a bearer value. -/
inductive BearerHeader (α : Type) where
  | missing
  | notBearer
  | bearer (tok : α)
deriving DecidableEq

/-- The verified subject of a bearer value under a given verification
oracle, as src/server.js checks it: the verification must return a payload
whose sub field is truthy. -/
def verifiedSub (verify : String → VerifyOutcome) (tok : String) : Option String :=
  match verify tok with
  | .err => none
  | .ok none => none
  | .ok (some p) => jsTruthyStr p.sub

/-- src/server.js lines 105-124: GET /auth/me — non-bearer requests 401,
unconfigured client id 500, thrown or empty or sub-less verification 401,
success 200. -/
def authMeServerJs (verify : String → VerifyOutcome) (clientId : Option String)
    (h : BearerHeader String) : Nat :=
  match h with
  | .missing => 401
  | .notBearer => 401
  | .bearer tok =>
    match clientId with
    | none => 500
    | some _ =>
      match verifiedSub verify tok with
      | none => 401
      | some _ => 200

/-! ## The JWT session of part_004 -/

/-- The claims part_004 signs into its session token. -/
structure SessionClaims where
  sub : String
  email : Option String
  name : Option String
deriving DecidableEq

/-- A signed session token: claims, issuance and expiry times, and the
secret it was signed with (standing in for the signature). -/
structure SessionToken where
  claims : SessionClaims
  iat : Nat
  exp : Nat
  signedWith : String
deriving DecidableEq

/-- Validation failures of a session token. -/
inductive JwtError where
  | invalidSignature
  | expired
deriving DecidableEq

/-- Modelled from the spec: the jsonwebtoken verify call used by
src/unnamed/part_004 line 139 is library code not present in the
repository; per section 4.3 the Session Validator checks the signature and
the expiry, and a credential validated at or after its expiry fails with
Expired. -/
def jwtVerify (tok : SessionToken) (secret : String) (now : Nat) :
    Except JwtError SessionClaims :=
  if tok.signedWith ≠ secret then .error .invalidSignature
  else if tok.exp ≤ now then .error .expired
  else .ok tok.claims

/-- Modelled from the spec: the jsonwebtoken sign call of
src/unnamed/part_004 lines 115-119 issues a token expiring a fixed
lifetime after issuance. -/
def jwtSign (claims : SessionClaims) (secret : String) (now lifetime : Nat) :
    SessionToken :=
  ⟨claims, now, now + lifetime, secret⟩

/-- The expiresIn value of 30 days used at part_004 line 119, in seconds. -/
def thirtyDays : Nat := 30 * 24 * 60 * 60

/-- src/unnamed/part_004 lines 133-144: GET /auth/me — non-bearer requests
401, any verification error 401, success 200 with the claims. -/
def authMePart004 (h : BearerHeader SessionToken) (secret : String) (now : Nat) :
    Nat × Option SessionClaims :=
  match h with
  | .missing => (401, none)
  | .notBearer => (401, none)
  | .bearer t =>
    match jwtVerify t secret now with
    | .error _ => (401, none)
    | .ok c => (200, some c)

/-! ## part_000: getUserFromIdToken and its ask handler -/

/-- src/unnamed/part_000 lines 84-92: verify the id token, returning the
payload, and return null on any thrown verification error. -/
def getUserFromIdToken (verify : String → VerifyOutcome) (idToken : String) :
    Option GPayload :=
  match verify idToken with
  | .err => none
  | .ok p => p

/-- src/unnamed/part_000 lines 93-101: POST /api/ask — extract the bearer
value, resolve the user through getUserFromIdToken, answer 401 without a
user and 200 with one. -/
def askHandlerPart000 (verify : String → VerifyOutcome) (h : BearerHeader String) :
    Nat :=
  let user : Option GPayload :=
    match h with
    | .bearer t => getUserFromIdToken verify t
    | _ => none
  match user with
  | none => 401
  | some _ => 200

/-! ## Helper lemmas -/

/-- A nonempty string is truthy. -/
theorem jsTruthyStr_some_of_ne {s : String} (h : s ≠ "") :
    jsTruthyStr (some s) = some s := by
  have : s.isEmpty = false := by
    cases he : s.isEmpty
    · rfl
    · exact absurd ((String.isEmpty_iff s).mp he) h
  simp [jsTruthyStr, this]

/-! ## Claim theorems -/

/-- C1: the claim says the owner subject id scoping a notes-store or ask
query is never taken from an unauthenticated request field.  The code
contradicts it: with no authenticated user, src/server.js line 146 scopes
the ask query by the request body userId, and the part_002 notes handlers
scope list and create by the raw query-string and body userId with no
credential input at all.  This theorem evaluates the code at those
inputs. -/
theorem claim_C1_owner_taken_from_request_field :
    resolveAskUserId ⟨some "hi", none, some "alice"⟩ = some "alice" ∧
    (notesListHandler [⟨1, "alice", none, none, 1, 1⟩, ⟨2, "bob", none, none, 2, 2⟩]
        (some "alice") none).rows = [⟨1, "alice", none, none, 1, 1⟩] ∧
    (notesCreateHandler [] (some "alice") none none 1 5).row
        = some ⟨1, "alice", none, none, 5, 5⟩ := by
  refine ⟨rfl, ?_, rfl⟩
  decide

/-- C2 counterexample: at the spec scenario of an expired authorization
code (provider answers status 400 with invalid_grant), the src/server.js
exchange handler answers 502 Token exchange failed, not 400
invalid_grant. -/
theorem claim_C2_counterexample :
    exchangeServerJs (some "cid") (some "secret") (some "expired123")
        ⟨false, 400, some "it"⟩ .err = ⟨502, "Token exchange failed"⟩ ∧
    (502 : Nat) ≠ 400 := by
  exact ⟨rfl, by decide⟩

/-- C2 (amended): mapGoogleExchangeError, as applied by the part_001
exchange handler, maps an expired or already-used code (provider 400
invalid_grant) to HTTP 400 invalid_grant, distinct from the 502 used for
provider unavailability; the src/server.js handler instead answers 502 for
every failed exchange. -/
theorem claim_C2_invalid_grant_maps_to_400 :
    ∀ (code : String) (e eu : GoogleHttpError),
      e.status = some 400 → e.errorCode = some "invalid_grant" →
      eu.status = some 503 →
      exchangePart001 (some code) (.err e) = ⟨400, "invalid_grant"⟩ ∧
      exchangePart001 (some code) (.err eu) = ⟨502, "oauth_exchange_failed"⟩ ∧
      (400 : Nat) ≠ 502 := by
  intro code e eu h1 h2 h3
  refine ⟨?_, ?_, by decide⟩
  · simp [exchangePart001, mapGoogleExchangeError, h1, h2]
  · simp [exchangePart001, mapGoogleExchangeError, h3]

/-- C2 witness: the amended mapping evaluated at concrete errors. -/
theorem claim_C2_witness :
    exchangePart001 (some "expired123") (.err ⟨some 400, some "invalid_grant"⟩)
        = ⟨400, "invalid_grant"⟩ ∧
    exchangePart001 (some "expired123") (.err ⟨some 503, none⟩)
        = ⟨502, "oauth_exchange_failed"⟩ ∧
    (400 : Nat) ≠ 502 :=
  claim_C2_invalid_grant_maps_to_400 "expired123" ⟨some 400, some "invalid_grant"⟩
    ⟨some 503, none⟩ rfl rfl rfl

/-- C3: a session credential presented at or after its expiry always fails
validation in the part_004 /auth/me handler with 401 and no user, and in
particular a token signed with the 30-day lifetime fails 30 days after
issuance. -/
theorem claim_C3_expired_session_rejected :
    ∀ (t : SessionToken) (secret : String) (now : Nat),
      t.exp ≤ now →
      (authMePart004 (.bearer t) secret now).1 = 401 ∧
      (authMePart004 (.bearer t) secret now).2 = none ∧
      ∀ (c : SessionClaims) (key : String) (t0 n : Nat),
        t0 + thirtyDays ≤ n →
        (authMePart004 (.bearer (jwtSign c key t0 thirtyDays)) key n).1 = 401 := by
  intro t secret now h
  have hv : ∀ (t2 : SessionToken) (s : String) (n : Nat), t2.exp ≤ n →
      (authMePart004 (.bearer t2) s n).1 = 401 ∧
      (authMePart004 (.bearer t2) s n).2 = none := by
    intro t2 s n hn
    by_cases hs : t2.signedWith ≠ s
    · simp [authMePart004, jwtVerify, hs]
    · simp [authMePart004, jwtVerify, hs, hn]
  refine ⟨(hv t secret now h).1, (hv t secret now h).2, ?_⟩
  intro c key t0 n hn
  exact (hv (jwtSign c key t0 thirtyDays) key n hn).1

/-- C3 witness: a token issued at time zero with the 30-day lifetime is
rejected when presented exactly at its expiry. -/
theorem claim_C3_witness :
    (authMePart004 (.bearer (jwtSign ⟨"user-1", none, none⟩ "key" 0 thirtyDays))
        "key" thirtyDays).1 = 401 :=
  (claim_C3_expired_session_rejected (jwtSign ⟨"user-1", none, none⟩ "key" 0 thirtyDays)
    "key" thirtyDays (by decide)).1

/-- C4 counterexample: with the OAuth client id unconfigured, a /auth/me
request presenting an invalid credential (the oracle rejects every token)
is answered 500 by src/server.js line 110, not 401. -/
theorem claim_C4_counterexample :
    authMeServerJs (fun _ => .err) none (.bearer "not-a-valid-token") = 500 ∧
    (500 : Nat) ≠ 401 :=
  ⟨rfl, by decide⟩

/-- C4 (amended): provided the OAuth client id is configured, the
src/server.js /auth/me handler answers 401 for every missing, invalid or
expired credential, never 500; the part_004 JWT variant answers 401 for
those unconditionally. -/
theorem claim_C4_authme_401_never_500 :
    (∀ (verify : String → VerifyOutcome) (cid : String) (h : BearerHeader String),
      (∀ t, h = .bearer t → verifiedSub verify t = none) →
      authMeServerJs verify (some cid) h = 401) ∧
    (∀ (secret : String) (now : Nat) (h : BearerHeader SessionToken),
      (∀ t, h = .bearer t → (jwtVerify t secret now).isOk = false) →
      (authMePart004 h secret now).1 = 401) := by
  constructor
  · intro verify cid h hn
    cases h with
    | missing => rfl
    | notBearer => rfl
    | bearer t => simp [authMeServerJs, hn t rfl]
  · intro secret now h hn
    cases h with
    | missing => rfl
    | notBearer => rfl
    | bearer t =>
      cases hv : jwtVerify t secret now with
      | error e => simp [authMePart004, hv]
      | ok c => exact absurd (hn t rfl) (by simp [hv, Except.isOk, Except.toBool])

/-- C4 witness: both handlers evaluated at a concretely rejected
credential with the client configured. -/
theorem claim_C4_witness :
    authMeServerJs (fun _ => .err) (some "cid") (.bearer "bad-token") = 401 ∧
    (authMePart004 (.bearer (jwtSign ⟨"u", none, none⟩ "other-key" 0 thirtyDays))
        "key" 0).1 = 401 :=
  ⟨claim_C4_authme_401_never_500.1 (fun _ => .err) "cid" (.bearer "bad-token")
      (fun t ht => by cases ht; rfl),
    claim_C4_authme_401_never_500.2 "key" 0
      (.bearer (jwtSign ⟨"u", none, none⟩ "other-key" 0 thirtyDays))
      (fun t ht => by cases ht; decide)⟩

/-- C5: on any ask request that reaches the generation call, an aborted
call (the timeout controller fired) is answered 504, while a non-ok
upstream response is answered 502, two distinct statuses; the configured
timeout defaults to 60000 milliseconds. -/
theorem claim_C5_timeout_504_distinct :
    ∀ (env : AskEnv) (req : AskReq) (uid key : String),
      questionOk req = true →
      resolveAskUserId req = some uid →
      env.geminiApiKey = some key →
      askHandler env req .abortError = ⟨504, none⟩ ∧
      (∀ (status : Nat) (extracted : Option (Option String)),
        (askHandler env req (.response false status extracted)).status = 502) ∧
      askTimeoutMs none = 60000 ∧ (504 : Nat) ≠ 502 := by
  intro env req uid key hq hu hk
  refine ⟨?_, ?_, rfl, by decide⟩
  · simp [askHandler, hq, hu, hk, askUpstreamRespond]
  · intro status extracted
    simp [askHandler, hq, hu, hk, askUpstreamRespond]

/-- C5 witness: the 504 and the default timeout at a concrete request. -/
theorem claim_C5_witness :
    askHandler ⟨some "k", none⟩ ⟨some "q", none, some "alice"⟩ .abortError
        = ⟨504, none⟩ ∧
    askTimeoutMs none = 60000 :=
  ⟨(claim_C5_timeout_504_distinct ⟨some "k", none⟩ ⟨some "q", none, some "alice"⟩
      "alice" "k" (by decide) rfl rfl).1,
    (claim_C5_timeout_504_distinct ⟨some "k", none⟩ ⟨some "q", none, some "alice"⟩
      "alice" "k" (by decide) rfl rfl).2.2.1⟩

/-- C6: for every list of notes and every character limit, buildContext
returns a string of length at most the limit, and that string is the
concatenation of the rendered notes cut at the limit (a prefix of the full
concatenation). -/
theorem claim_C6_buildContext_bounded :
    ∀ (notes : List NoteDoc) (limitChars : Nat),
      (buildContext notes limitChars).length ≤ limitChars ∧
      ∃ rest, (buildContext notes limitChars).data ++ rest = (buildJoined notes).data := by
  intro notes limitChars
  by_cases hc : (buildJoined notes).length > limitChars
  · have hbc : buildContext notes limitChars = sliceTo (buildJoined notes) limitChars := by
      simp [buildContext, hc]
    constructor
    · rw [hbc]
      have h1 : (sliceTo (buildJoined notes) limitChars).length
          = ((buildJoined notes).data.take limitChars).length := rfl
      rw [h1, List.length_take]
      exact Nat.min_le_left _ _
    · refine ⟨(buildJoined notes).data.drop limitChars, ?_⟩
      rw [hbc]
      exact List.take_append_drop _ _
  · have hbc : buildContext notes limitChars = buildJoined notes := by
      simp [buildContext, hc]
    constructor
    · rw [hbc]
      exact Nat.le_of_not_lt hc
    · exact ⟨[], by rw [hbc]; simp⟩

/-- C7: the list query returns only the owner's rows, at most 100 of them,
ordered most-recently-created first; and a create through the part_002
handler followed by a list for the same owner (with a fresh creation
tick) yields the created row first. -/
theorem claim_C7_list_recency_and_bound :
    ∀ (table : List NoteRow) (owner : String) (q : Option String),
      (∀ r ∈ notesQuery table owner q, r.user_id = owner) ∧
      (notesQuery table owner q).length ≤ 100 ∧
      List.Sorted createdDesc (notesQuery table owner q) ∧
      ∀ (title body : Option String) (id now : Nat),
        owner ≠ "" →
        (∀ r ∈ table, r.created_at < now) →
        (notesQuery (notesCreateHandler table (some owner) title body id now).table
            owner none).head? = some ⟨id, owner, title, body, now, now⟩ := by
  intro table owner q
  refine ⟨?_, ?_, ?_, ?_⟩
  · intro r hr
    have h1 : r ∈ List.insertionSort createdDesc
        (table.filter (fun r => r.user_id = owner && rowMatchesQ q r)) :=
      (List.take_sublist 100 _).mem hr
    have h2 : r ∈ table.filter (fun r => r.user_id = owner && rowMatchesQ q r) :=
      (List.mem_insertionSort createdDesc).mp h1
    have h3 := (List.mem_filter.mp h2).2
    have h4 : decide (r.user_id = owner) = true := by
      cases hb : decide (r.user_id = owner)
      · rw [hb] at h3; simp at h3
      · rfl
    exact of_decide_eq_true h4
  · rw [notesQuery, List.length_take]
    exact Nat.min_le_left _ _
  · exact List.Pairwise.sublist (List.take_sublist 100 _)
      (List.sorted_insertionSort createdDesc _)
  · intro title body id now howner hfresh
    have hcreate : (notesCreateHandler table (some owner) title body id now).table
        = table ++ [⟨id, owner, title, body, now, now⟩] := by
      rw [notesCreateHandler, jsTruthyStr_some_of_ne howner]
    rw [hcreate]
    set nr : NoteRow := ⟨id, owner, title, body, now, now⟩ with hnr
    set p : NoteRow → Bool := fun r => r.user_id = owner && rowMatchesQ none r with hp
    have hpnr : p nr = true := by simp [hp, hnr, rowMatchesQ]
    have hfil : (table ++ [nr]).filter p = table.filter p ++ [nr] := by
      rw [List.filter_append]
      simp [hpnr]
    have hperm := List.perm_insertionSort createdDesc ((table ++ [nr]).filter p)
    have hsorted := List.sorted_insertionSort createdDesc ((table ++ [nr]).filter p)
    have hmem : nr ∈ List.insertionSort createdDesc ((table ++ [nr]).filter p) := by
      rw [List.mem_insertionSort, hfil]
      exact List.mem_append_right _ (List.mem_singleton.mpr rfl)
    obtain ⟨h, t, hht⟩ : ∃ h t, List.insertionSort createdDesc ((table ++ [nr]).filter p)
        = h :: t := by
      cases hs : List.insertionSort createdDesc ((table ++ [nr]).filter p) with
      | nil => rw [hs] at hmem; cases hmem
      | cons a l => exact ⟨a, l, rfl⟩
    have hhd : h = nr := by
      by_contra hne
      have hmem2 : nr ∈ t := by
        rw [hht] at hmem
        rcases List.mem_cons.mp hmem with heq | hm
        · exact absurd heq.symm hne
        · exact hm
      have hrel : createdDesc h nr := by
        rw [hht] at hsorted
        exact List.rel_of_sorted_cons hsorted nr hmem2
      have hhmem : h ∈ (table ++ [nr]).filter p := by
        have : h ∈ List.insertionSort createdDesc ((table ++ [nr]).filter p) := by
          rw [hht]; exact List.mem_cons_self _ _
        exact (List.mem_insertionSort createdDesc).mp this
      have hhtab : h ∈ table := by
        have := (List.mem_filter.mp hhmem).1
        cases List.mem_append.mp this with
        | inl hin => exact hin
        | inr hin =>
          exact absurd (List.mem_singleton.mp hin) hne
      have hlt : h.created_at < now := hfresh h hhtab
      have hge : now ≤ h.created_at := hrel
      exact Nat.lt_irrefl _ (Nat.lt_of_lt_of_le hlt hge)
    rw [notesQuery, hht, hhd]
    rfl

/-- C7 witness: a one-row table for alice, then a create at a later tick
followed by a list puts the new row first; the list is bounded by 100. -/
theorem claim_C7_witness :
    (notesQuery (notesCreateHandler [⟨1, "alice", some "x", none, 3, 3⟩]
        (some "alice") none none 2 10).table "alice" none).head?
      = some ⟨2, "alice", none, none, 10, 10⟩ ∧
    (notesQuery [⟨1, "alice", some "x", none, 3, 3⟩] "alice" none).length ≤ 100 :=
  ⟨(claim_C7_list_recency_and_bound [⟨1, "alice", some "x", none, 3, 3⟩] "alice"
      none).2.2.2 none none 2 10 (by decide) (by decide),
    (claim_C7_list_recency_and_bound [⟨1, "alice", some "x", none, 3, 3⟩] "alice"
      none).2.1⟩

/-- C9: getUserFromIdToken turns every thrown verification failure into
null, and the part_000 ask handler answers 401 whenever no user results
(including every malformed, forged or expired bearer token) — it answers
401 or 200, never 500. -/
theorem claim_C9_getUser_total_401 :
    ∀ (verify : String → VerifyOutcome) (h : BearerHeader String),
      (∀ t, verify t = .err → getUserFromIdToken verify t = none) ∧
      ((∀ t, h = .bearer t → getUserFromIdToken verify t = none) →
        askHandlerPart000 verify h = 401) ∧
      (askHandlerPart000 verify h = 401 ∨ askHandlerPart000 verify h = 200) := by
  intro verify h
  refine ⟨?_, ?_, ?_⟩
  · intro t ht
    simp [getUserFromIdToken, ht]
  · intro hn
    cases h with
    | missing => rfl
    | notBearer => rfl
    | bearer t => simp [askHandlerPart000, hn t rfl]
  · cases h with
    | missing => exact Or.inl rfl
    | notBearer => exact Or.inl rfl
    | bearer t =>
      cases hv : getUserFromIdToken verify t with
      | none => exact Or.inl (by simp [askHandlerPart000, hv])
      | some p => exact Or.inr (by simp [askHandlerPart000, hv])

/-- C9 witness: an oracle that rejects every token yields null and a 401
at a concrete bearer value. -/
theorem claim_C9_witness :
    getUserFromIdToken (fun _ => .err) "forged" = none ∧
    askHandlerPart000 (fun _ => .err) (.bearer "forged") = 401 :=
  ⟨(claim_C9_getUser_total_401 (fun _ => .err) (.bearer "forged")).1 "forged" rfl,
    (claim_C9_getUser_total_401 (fun _ => .err) (.bearer "forged")).2.1
      (fun t ht => by cases ht; rfl)⟩

/-! ## Lemmas on lines, trimming and the SOURCES: pattern -/

/-- Splitting always yields at least one line. -/
theorem splitLines_ne_nil (s : List Char) : splitLines s ≠ [] := by
  induction s with
  | nil => simp [splitLines]
  | cons c cs ih =>
    simp only [splitLines]
    split
    · simp
    · cases hcs : splitLines cs with
      | nil => exact absurd hcs ih
      | cons a l => simp [List.modifyHead]

/-- No produced line contains a newline character. -/
theorem splitLines_no_nl (s : List Char) : ∀ l ∈ splitLines s, '\n' ∉ l := by
  induction s with
  | nil =>
    intro l hl
    simp [splitLines] at hl
    simp [hl]
  | cons c cs ih =>
    intro l hl
    by_cases h : c = '\n'
    · simp only [splitLines, if_pos h] at hl
      rcases List.mem_cons.mp hl with h1 | h1
      · simp [h1]
      · exact ih l h1
    · simp only [splitLines, if_neg h] at hl
      cases hcs : splitLines cs with
      | nil => exact absurd hcs (splitLines_ne_nil cs)
      | cons a t =>
        rw [hcs] at hl
        simp only [List.modifyHead] at hl
        rcases List.mem_cons.mp hl with h1 | h1
        · subst h1
          intro hmem
          rcases List.mem_cons.mp hmem with h2 | h2
          · exact h h2.symm
          · exact ih a (hcs ▸ List.mem_cons_self a t) h2
        · exact ih l (hcs ▸ List.mem_cons_of_mem a h1)

/-- The empty line does not match the SOURCES: pattern. -/
theorem isSourcesLine_nil : isSourcesLine ([] : List Char) = false := by decide

/-- Splitting after a newline head. -/
theorem splitLines_cons_nl (t : List Char) :
    splitLines ('\n' :: t) = [] :: splitLines t := by
  simp [splitLines]

/-- Splitting after a non-newline head. -/
theorem splitLines_cons_of_ne {c : Char} (h : ¬ c = '\n') (t : List Char) :
    splitLines (c :: t) = (splitLines t).modifyHead (c :: ·) := by
  simp [splitLines, h]

/-- A boolean prefix check survives extending the larger list on the
right. -/
theorem isPrefixOf_append_ext : ∀ {x y : List Char} (z : List Char),
    x.isPrefixOf y = true → x.isPrefixOf (y ++ z) = true := by
  intro x
  induction x with
  | nil =>
    intro y z _
    simp [List.isPrefixOf]
  | cons a as ih =>
    intro y z h
    cases y with
    | nil => simp [List.isPrefixOf] at h
    | cons b bs =>
      simp only [List.isPrefixOf, Bool.and_eq_true] at h
      simp only [List.cons_append, List.isPrefixOf, Bool.and_eq_true]
      exact ⟨h.1, ih z h.2⟩

/-- A boolean prefix check survives lower-casing both lists. -/
theorem isPrefixOf_map_toLower : ∀ {x y : List Char},
    x.isPrefixOf y = true → (lowerList x).isPrefixOf (lowerList y) = true := by
  intro x
  induction x with
  | nil =>
    intro y _
    simp [lowerList, List.isPrefixOf]
  | cons a as ih =>
    intro y h
    cases y with
    | nil => simp [List.isPrefixOf] at h
    | cons b bs =>
      simp only [List.isPrefixOf, Bool.and_eq_true] at h
      have hab : a = b := eq_of_beq h.1
      simp only [lowerList, List.map_cons, List.isPrefixOf, Bool.and_eq_true]
      refine ⟨by rw [hab]; exact beq_self_eq_true _, ?_⟩
      have := ih h.2
      simpa [lowerList] using this

/-- Dropping a satisfied prefix commutes with appending when something
survives the drop. -/
theorem dropWhile_append_of_ne_nil {p : Char → Bool} : ∀ {l : List Char} (w : List Char),
    l.dropWhile p ≠ [] → (l ++ w).dropWhile p = l.dropWhile p ++ w := by
  intro l
  induction l with
  | nil =>
    intro w h
    simp [List.dropWhile] at h
  | cons c cs ih =>
    intro w h
    by_cases hp : p c
    · rw [List.dropWhile_cons_of_pos hp] at h
      rw [List.cons_append, List.dropWhile_cons_of_pos hp,
        List.dropWhile_cons_of_pos hp]
      exact ih w h
    · have hp2 : p c = false := by
        cases hpc : p c
        · rfl
        · exact absurd hpc hp
      rw [List.cons_append, List.dropWhile_cons_of_neg hp,
        List.dropWhile_cons_of_neg hp, List.cons_append]

/-- A line matching the SOURCES: pattern still matches after characters
are appended to it. -/
theorem isSourcesLine_append {l : List Char} (w : List Char)
    (h : isSourcesLine l = true) : isSourcesLine (l ++ w) = true := by
  have hne : l.dropWhile isInlineWs ≠ [] := by
    intro h0
    rw [isSourcesLine, h0] at h
    exact absurd h (by decide)
  rw [isSourcesLine] at h ⊢
  rw [dropWhile_append_of_ne_nil w hne]
  have h2 := isPrefixOf_append_ext (lowerList w) h
  simpa [lowerList] using h2

/-- Prepending one inline-whitespace character does not change whether a
line matches the SOURCES: pattern. -/
theorem isSourcesLine_ws_cons {c : Char} (hc : isInlineWs c = true) (l : List Char) :
    isSourcesLine (c :: l) = isSourcesLine l := by
  simp [isSourcesLine, List.dropWhile_cons_of_pos hc]

/-- Prepending inline whitespace does not change whether a line matches
the SOURCES: pattern. -/
theorem isSourcesLine_ws_append {w : List Char} (hw : ∀ c ∈ w, isInlineWs c = true)
    (l : List Char) : isSourcesLine (w ++ l) = isSourcesLine l := by
  induction w with
  | nil => simp
  | cons c cs ih =>
    rw [List.cons_append, isSourcesLine_ws_cons (hw c (List.mem_cons_self c cs))]
    exact ih (fun d hd => hw d (List.mem_cons_of_mem c hd))

/-- Splitting a concatenation glues the line lists of the two halves. -/
theorem splitLines_append (a b : List Char) :
    splitLines (a ++ b) = glue (splitLines a) (splitLines b) := by
  induction a with
  | nil =>
    cases hb : splitLines b with
    | nil => exact absurd hb (splitLines_ne_nil b)
    | cons y ys => simp [splitLines, glue, hb]
  | cons c cs ih =>
    by_cases h : c = '\n'
    · subst h
      cases hcs : splitLines cs with
      | nil => exact absurd hcs (splitLines_ne_nil cs)
      | cons x xs =>
        show [] :: splitLines (cs ++ b) = glue ([] :: splitLines cs) (splitLines b)
        rw [ih, hcs]
        simp [glue]
    · cases hcs : splitLines cs with
      | nil => exact absurd hcs (splitLines_ne_nil cs)
      | cons x xs =>
        rw [List.cons_append, splitLines_cons_of_ne h, ih, hcs,
          splitLines_cons_of_ne h, hcs]
        cases xs with
        | nil =>
          cases hb : splitLines b with
          | nil => exact absurd hb (splitLines_ne_nil b)
          | cons y ys => simp [glue, hb, List.modifyHead]
        | cons x2 xs2 => simp [glue, List.modifyHead]

/-- If every glued line is clean then every line of the left half is
clean (its last line may have been extended on the right). -/
theorem glue_ok_left : ∀ (A B : List (List Char)), B ≠ [] →
    (∀ l ∈ glue A B, isSourcesLine l = false) →
    ∀ l ∈ A, isSourcesLine l = false := by
  intro A
  induction A with
  | nil =>
    intro B _ _ l hl
    cases hl
  | cons x xs ih =>
    intro B hB h l hl
    cases xs with
    | nil =>
      cases B with
      | nil => exact absurd rfl hB
      | cons y ys =>
        have hxy : isSourcesLine (x ++ y) = false := h (x ++ y) (by simp [glue])
        have hx : isSourcesLine x = false := by
          cases hsx : isSourcesLine x
          · rfl
          · exact absurd (isSourcesLine_append y hsx) (by simp [hxy])
        rcases List.mem_cons.mp hl with h1 | h1
        · exact h1 ▸ hx
        · cases h1
    | cons x2 xs2 =>
      have hglue : glue (x :: x2 :: xs2) B = x :: glue (x2 :: xs2) B := by
        simp [glue]
      rcases List.mem_cons.mp hl with h1 | h1
      · subst h1
        exact h l (by rw [hglue]; exact List.mem_cons_self _ _)
      · exact ih B hB (fun l2 hl2 => h l2 (by rw [hglue]; exact List.mem_cons_of_mem _ hl2))
          l h1

/-- Every line of the left half of a clean concatenation is clean. -/
theorem linesOk_append_left (a b : List Char) (h : linesOk (a ++ b) = true) :
    linesOk a = true := by
  rw [linesOk, List.all_eq_true] at h ⊢
  rw [splitLines_append] at h
  have h2 : ∀ x ∈ glue (splitLines a) (splitLines b), isSourcesLine x = false := by
    intro x hx
    simpa using h x hx
  intro l hl
  simp [glue_ok_left (splitLines a) (splitLines b) (splitLines_ne_nil b) h2 l hl]

/-- A whitespace character that is not a newline is inline whitespace. -/
theorem isInlineWs_of_isJsWs {c : Char} (h : isJsWs c = true) (hn : ¬ c = '\n') :
    isInlineWs c = true := by
  rw [isJsWs, Bool.or_eq_true] at h
  rcases h with h | h
  · exact h
  · exact absurd (by simpa using h) hn

/-- Stripping a leading whitespace block preserves line cleanliness. -/
theorem linesOk_ws_prepend : ∀ {w : List Char}, (∀ c ∈ w, isJsWs c = true) →
    ∀ {y : List Char}, linesOk (w ++ y) = true → linesOk y = true := by
  intro w
  induction w with
  | nil =>
    intro _ y h
    simpa using h
  | cons c cs ih =>
    intro hw y h
    have htail : ∀ d ∈ cs, isJsWs d = true :=
      fun d hd => hw d (List.mem_cons_of_mem c hd)
    by_cases hc : c = '\n'
    · subst hc
      have h2 : linesOk (cs ++ y) = true := by
        rw [linesOk] at h ⊢
        rw [List.cons_append, splitLines_cons_nl, List.all_cons,
          Bool.and_eq_true] at h
        exact h.2
      exact ih htail h2
    · have hcin : isInlineWs c = true :=
        isInlineWs_of_isJsWs (hw c (List.mem_cons_self c cs)) hc
      have h2 : linesOk (cs ++ y) = true := by
        rw [linesOk] at h ⊢
        rw [List.cons_append, splitLines_cons_of_ne hc] at h
        cases hcs : splitLines (cs ++ y) with
        | nil => exact absurd hcs (splitLines_ne_nil _)
        | cons x xs =>
          rw [hcs] at h
          simp only [List.modifyHead, List.all_cons, Bool.and_eq_true] at h
          rw [List.all_cons, Bool.and_eq_true]
          refine ⟨?_, h.2⟩
          have h3 := h.1
          rw [isSourcesLine_ws_cons hcin] at h3
          exact h3
      exact ih htail h2

/-- The right trim removes a suffix of the list. -/
theorem rtrimChars_append_exists : ∀ (s : List Char), ∃ w, s = rtrimChars s ++ w := by
  intro s
  induction s with
  | nil => exact ⟨[], rfl⟩
  | cons c cs ih =>
    obtain ⟨w, hw⟩ := ih
    rcases he : rtrimChars cs with _ | ⟨d, ds⟩
    · by_cases hc : isJsWs c
      · exact ⟨c :: cs, by simp [rtrimChars, he, hc]⟩
      · refine ⟨cs, ?_⟩
        have h1 : rtrimChars (c :: cs) = [c] := by simp [rtrimChars, he, hc]
        rw [h1]
        rfl
    · refine ⟨w, ?_⟩
      have h1 : rtrimChars (c :: cs) = c :: (d :: ds) := by simp [rtrimChars, he]
      rw [h1, List.cons_append, ← he, ← hw]

/-- Trimming preserves line cleanliness. -/
theorem linesOk_trimChars {s : List Char} (h : linesOk s = true) :
    linesOk (trimChars s) = true := by
  have h1 : linesOk (ltrimChars s) = true := by
    apply linesOk_ws_prepend (w := s.takeWhile isJsWs)
      (fun c hc => List.mem_takeWhile_imp hc)
    rw [ltrimChars, List.takeWhile_append_dropWhile]
    exact h
  obtain ⟨w, hw⟩ := rtrimChars_append_exists (ltrimChars s)
  have h2 : linesOk (rtrimChars (ltrimChars s) ++ w) = true := by
    rw [← hw]
    exact h1
  exact linesOk_append_left _ _ h2

/-- A newline-free list is a single line. -/
theorem splitLines_single : ∀ {l : List Char}, '\n' ∉ l → splitLines l = [l] := by
  intro l
  induction l with
  | nil =>
    intro _
    rfl
  | cons c cs ih =>
    intro h
    have hc : ¬ c = '\n' := fun he => h (he ▸ List.mem_cons_self c cs)
    rw [splitLines_cons_of_ne hc, ih (fun hm => h (List.mem_cons_of_mem c hm))]
    simp [List.modifyHead]

/-- Splitting a newline-free line followed by a newline and a rest. -/
theorem splitLines_append_nl : ∀ {l : List Char}, '\n' ∉ l → ∀ (r : List Char),
    splitLines (l ++ '\n' :: r) = l :: splitLines r := by
  intro l
  induction l with
  | nil =>
    intro _ r
    rw [List.nil_append, splitLines_cons_nl]
  | cons c cs ih =>
    intro h r
    have hc : ¬ c = '\n' := fun he => h (he ▸ List.mem_cons_self c cs)
    rw [List.cons_append, splitLines_cons_of_ne hc,
      ih (fun hm => h (List.mem_cons_of_mem c hm)) r]
    simp [List.modifyHead]

/-- Splitting inverts joining for nonempty newline-free line lists. -/
theorem splitLines_joinLines : ∀ {L : List (List Char)}, L ≠ [] →
    (∀ l ∈ L, '\n' ∉ l) → splitLines (joinLines L) = L := by
  intro L
  induction L with
  | nil =>
    intro h _
    exact absurd rfl h
  | cons l ls ih =>
    intro _ hnl
    cases ls with
    | nil => exact splitLines_single (hnl l (List.mem_cons_self l []))
    | cons l2 ls2 =>
      have hj : joinLines (l :: l2 :: ls2) = l ++ '\n' :: joinLines (l2 :: ls2) := rfl
      rw [hj, splitLines_append_nl (hnl l (List.mem_cons_self l (l2 :: ls2))),
        ih (by simp) (fun x hx => hnl x (List.mem_cons_of_mem l hx))]

/-- Joining inverts splitting. -/
theorem joinLines_splitLines : ∀ (s : List Char), joinLines (splitLines s) = s := by
  intro s
  induction s with
  | nil => rfl
  | cons c cs ih =>
    by_cases h : c = '\n'
    · subst h
      rw [splitLines_cons_nl]
      cases hcs : splitLines cs with
      | nil => exact absurd hcs (splitLines_ne_nil cs)
      | cons x xs =>
        have hj : joinLines ([] :: x :: xs) = [] ++ '\n' :: joinLines (x :: xs) := rfl
        rw [hj, List.nil_append, ← hcs, ih]
    · rw [splitLines_cons_of_ne h]
      cases hcs : splitLines cs with
      | nil => exact absurd hcs (splitLines_ne_nil cs)
      | cons x xs =>
        simp only [List.modifyHead]
        cases xs with
        | nil =>
          have hx : x = cs := by
            have h2 := ih
            rw [hcs] at h2
            exact h2
          rw [hx]
          rfl
        | cons x2 xs2 =>
          have hih : joinLines (x :: x2 :: xs2) = cs := by
            rw [← hcs]
            exact ih
          have hj : joinLines ((c :: x) :: x2 :: xs2)
              = (c :: x) ++ '\n' :: joinLines (x2 :: xs2) := rfl
          have hj2 : joinLines (x :: x2 :: xs2) = x ++ '\n' :: joinLines (x2 :: xs2) := rfl
          rw [hj, List.cons_append, ← hj2, hih]

/-- Blanking never yields a line matching the pattern. -/
theorem isSourcesLine_blankSrc (l : List Char) : isSourcesLine (blankSrc l) = false := by
  rw [blankSrc]
  cases hs : isSourcesLine l
  · simp [hs]
  · simp [hs, isSourcesLine_nil]

/-- Every line of the stripSources output is clean. -/
theorem stripSources_linesOk (s : String) : linesOk (stripSources s).data = true := by
  have hdata : (stripSources s).data
      = trimChars (joinLines ((splitLines s.data).map blankSrc)) := rfl
  rw [hdata]
  apply linesOk_trimChars
  have hne : (splitLines s.data).map blankSrc ≠ [] := by
    intro h0
    exact splitLines_ne_nil s.data (List.map_eq_nil_iff.mp h0)
  have hnl : ∀ l ∈ (splitLines s.data).map blankSrc, '\n' ∉ l := by
    intro l hl
    obtain ⟨l0, hl0, rfl⟩ := List.mem_map.mp hl
    have h0 := splitLines_no_nl s.data l0 hl0
    rw [blankSrc]
    split
    · simp
    · exact h0
  rw [linesOk, splitLines_joinLines hne hnl, List.all_eq_true]
  intro l hl
  obtain ⟨l0, _, rfl⟩ := List.mem_map.mp hl
  simp [isSourcesLine_blankSrc]

/-- Blanking is the identity on a list of clean lines. -/
theorem map_blankSrc_id : ∀ {L : List (List Char)},
    (∀ l ∈ L, isSourcesLine l = false) → L.map blankSrc = L := by
  intro L
  induction L with
  | nil =>
    intro _
    rfl
  | cons x xs ih =>
    intro h
    rw [List.map_cons, ih (fun l hl => h l (List.mem_cons_of_mem x hl))]
    have hx : blankSrc x = x := by
      rw [blankSrc, if_neg]
      simp [h x (List.mem_cons_self x xs)]
    rw [hx]

/-- dropWhile is idempotent. -/
theorem dropWhile_idem {p : Char → Bool} : ∀ (l : List Char),
    (l.dropWhile p).dropWhile p = l.dropWhile p := by
  intro l
  induction l with
  | nil => rfl
  | cons c cs ih =>
    by_cases hp : p c
    · rw [List.dropWhile_cons_of_pos hp]
      exact ih
    · rw [List.dropWhile_cons_of_neg hp, List.dropWhile_cons_of_neg hp]

/-- Consing onto a list whose right trim is nonempty. -/
theorem rtrimChars_cons_of_ne_nil {cs : List Char} {d : Char} {ds : List Char}
    (h : rtrimChars cs = d :: ds) (c : Char) :
    rtrimChars (c :: cs) = c :: d :: ds := by
  simp [rtrimChars, h]

/-- The right trim is idempotent. -/
theorem rtrimChars_idem : ∀ (l : List Char), rtrimChars (rtrimChars l) = rtrimChars l := by
  intro l
  induction l with
  | nil => rfl
  | cons c cs ih =>
    rcases he : rtrimChars cs with _ | ⟨d, ds⟩
    · by_cases hc : isJsWs c
      · simp [rtrimChars, he, hc]
      · simp [rtrimChars, he, hc]
    · have h1 : rtrimChars (c :: cs) = c :: d :: ds := by simp [rtrimChars, he]
      have h2 : rtrimChars (d :: ds) = d :: ds := by
        rw [he] at ih
        exact ih
      rw [h1]
      exact rtrimChars_cons_of_ne_nil h2 c

/-- The head surviving a dropWhile fails the predicate. -/
theorem dropWhile_head_not {p : Char → Bool} : ∀ {l : List Char} {c : Char}
    {cs : List Char}, l.dropWhile p = c :: cs → p c = false := by
  intro l
  induction l with
  | nil =>
    intro c cs h
    simp [List.dropWhile] at h
  | cons a as ih =>
    intro c cs h
    by_cases hp : p a
    · rw [List.dropWhile_cons_of_pos hp] at h
      exact ih h
    · rw [List.dropWhile_cons_of_neg hp] at h
      cases h
      cases hpc : p a
      · rfl
      · exact absurd hpc hp

/-- The right trim keeps the head character when nonempty. -/
theorem rtrimChars_cons_shape (c : Char) (cs : List Char) :
    rtrimChars (c :: cs) = [] ∨ ∃ t, rtrimChars (c :: cs) = c :: t := by
  rcases he : rtrimChars cs with _ | ⟨d, ds⟩
  · by_cases hc : isJsWs c
    · left
      simp [rtrimChars, he, hc]
    · right
      exact ⟨[], by simp [rtrimChars, he, hc]⟩
  · right
    exact ⟨d :: ds, by simp [rtrimChars, he]⟩

/-- Left-trimming after a right trim of a left-trimmed list changes
nothing. -/
theorem ltrim_rtrim_ltrim (s : List Char) :
    ltrimChars (rtrimChars (ltrimChars s)) = rtrimChars (ltrimChars s) := by
  rcases hd : ltrimChars s with _ | ⟨c, cs⟩
  · rfl
  · have hc : isJsWs c = false := by
      rw [ltrimChars] at hd
      exact dropWhile_head_not hd
    rcases rtrimChars_cons_shape c cs with h0 | ⟨t, ht⟩
    · rw [h0]
      rfl
    · rw [ht, ltrimChars, List.dropWhile_cons_of_neg (by simp [hc])]

/-- Trimming is idempotent. -/
theorem trimChars_idem (s : List Char) : trimChars (trimChars s) = trimChars s := by
  rw [trimChars, trimChars, ltrim_rtrim_ltrim]
  exact rtrimChars_idem _

/-- C8: for every provider string, no line of the stripSources output
begins, after optional inline whitespace, with the SOURCES: header; and
the ask response path answers the stripped extracted text. -/
theorem claim_C8_stripSources_no_sources_line :
    (∀ s : String,
      ((splitLines (stripSources s).data).all
        (fun l => !(srcHeader.isPrefixOf (l.dropWhile isInlineWs)))) = true) ∧
    (∀ e : Option String,
      (askUpstreamRespond (.response true 200 (some e))).answer
        = some (stripSources (e.getD ""))) := by
  constructor
  · intro s
    rw [List.all_eq_true]
    intro l hl
    have hok := stripSources_linesOk s
    rw [linesOk, List.all_eq_true] at hok
    have h1 : isSourcesLine l = false := by simpa using hok l hl
    cases hp : srcHeader.isPrefixOf (l.dropWhile isInlineWs)
    · simp
    · have h2 := isPrefixOf_map_toLower hp
      rw [isSourcesLine] at h1
      rw [h2] at h1
      cases h1
  · intro e
    rfl

/-- C10: stripSources is idempotent. -/
theorem claim_C10_stripSources_idem :
    ∀ s : String, stripSources (stripSources s) = stripSources s := by
  intro s
  have hok := stripSources_linesOk s
  have hdata : (stripSources s).data
      = trimChars (joinLines ((splitLines s.data).map blankSrc)) := rfl
  have htrim : trimChars (stripSources s).data = (stripSources s).data := by
    rw [hdata]
    exact trimChars_idem _
  rw [linesOk, List.all_eq_true] at hok
  have hmap : (splitLines (stripSources s).data).map blankSrc
      = splitLines (stripSources s).data :=
    map_blankSrc_id (fun l hl => by simpa using hok l hl)
  show String.mk (trimChars (joinLines
      ((splitLines (stripSources s).data).map blankSrc))) = stripSources s
  rw [hmap, joinLines_splitLines, htrim]

end NoteAI
